import Mathlib

/-!
# A shallow embedding of the `AudioFile` PCM WAVE codec

This file embeds the WAVE encode/decode logic of `src/main/AudioFile.h`
(an Arduino port of a WAVE audio file class) into Lean 4 and proves, or
refutes, the specification's claims about it.

Modelling conventions:

* The byte stream (`String` in the source, used purely as a random-access
  byte container per the spec's "external collaborator" description) is a
  `List ℕ` of bytes; out-of-range access yields `0`, matching the Arduino
  `String::operator[]` contract of returning 0 for an out-of-range index.
* C `int` arithmetic is modelled with unbounded `ℤ` (the source is
  platform-independent per the spec); explicitly sized types
  (`int16_t`, `int32_t`, `uint8_t`, `uint32_t`) wrap, modelled with
  explicit `% 2^w` reductions (`toInt16`, `toInt32`, `toU32`, ...).
* Floating-point samples (`T`, instantiated at `float`/`double`) are
  modelled with `ℚ`; `static_cast` from a floating value to an integer
  type truncates toward zero (`truncQ`).
* C integer division truncates toward zero; we use `Int.tdiv` (not the
  Euclidean `/` of `ℤ`) wherever the source divides `int` values.
-/

attribute [local semireducible] Rat.mul Rat.inv Rat.add Rat.sub

namespace AudioFileSpec

/-- Wrap an unbounded integer to the value of a C `int16_t` two's-complement
assignment (`(int16_t) x`). -/
def toInt16 (x : ℤ) : ℤ := (x + 2 ^ 15) % 2 ^ 16 - 2 ^ 15

/-- Wrap an unbounded integer to the value of a C `int32_t` two's-complement
assignment (`(int32_t) x`). -/
def toInt32 (x : ℤ) : ℤ := (x + 2 ^ 31) % 2 ^ 32 - 2 ^ 31

/-- The `uint32_t` (bit-pattern) view of an integer: `x mod 2^32` as a `ℕ`. -/
def toU32 (x : ℤ) : ℕ := (x % 2 ^ 32).toNat

/-- The `uint16_t` view of an integer: `x mod 2^16` as a `ℕ`. -/
def toU16 (x : ℤ) : ℕ := (x % 2 ^ 16).toNat

/-- The `uint8_t` view of an integer: `x mod 2^8` as a `ℕ`. -/
def toU8 (x : ℤ) : ℕ := (x % 2 ^ 8).toNat

/-- C truncation toward zero of a floating value on `static_cast` to an
integer type: `⌊q⌋` for nonnegative `q`, `⌈q⌉` for negative `q`. -/
def truncQ (q : ℚ) : ℤ := if 0 ≤ q then ⌊q⌋ else ⌈q⌉

/-- Byte access into the stream.  `String::operator[]` on the Arduino core
returns 0 when the index is out of range (including a negative index after
the unsigned comparison), so the model is total with default 0. -/
def byteAt (s : List ℕ) (i : ℤ) : ℕ :=
  if 0 ≤ i then s.getD i.toNat 0 else 0

/-- Modelled from the spec: `splitString` of the missing `Util.h` is the
byte container's "sub-range extraction" capability: the sub-list of bytes
of `s` from index `a` (inclusive) to `b` (exclusive). -/
def splitString (s : List ℕ) (a b : ℕ) : List ℕ :=
  (s.drop a).take (b - a)

/-- `AudioFile<T>::twoBytesToInt`, little-endian case: assemble
`(source[i+1] << 8) | source[i]` and assign to `int16_t`. -/
def twoBytesToInt (source : List ℕ) (startIndex : ℤ) : ℤ :=
  toInt16 (byteAt source (startIndex + 1) * 2 ^ 8 + byteAt source startIndex)

/-- `AudioFile<T>::fourBytesToInt`, little-endian case: assemble
`(source[i+3] << 24) | ... | source[i]` and assign to `int32_t`. -/
def fourBytesToInt (source : List ℕ) (startIndex : ℤ) : ℤ :=
  toInt32 (byteAt source (startIndex + 3) * 2 ^ 24 +
           byteAt source (startIndex + 2) * 2 ^ 16 +
           byteAt source (startIndex + 1) * 2 ^ 8 +
           byteAt source startIndex)

/-- `AudioFile<T>::getIndexOfString`: linear scan for the first index `i`
with `0 ≤ i < source.length - stringLength` (strict, exactly as the C loop
bound) whose sub-range equals the target; `-1` when there is none. -/
def getIndexOfString (source target : List ℕ) : ℤ :=
  match (List.range (source.length - target.length)).find?
      (fun i => splitString source i (i + target.length) = target) with
  | some i => (i : ℤ)
  | none => -1

/-! ## Sample Converter -/

/-- `AudioFile<T>::clamp`, exactly as written in the source:
`value = (value < minValue) ? value : minValue;`
`value = (value > maxValue) ? value : maxValue;`
(the comments in the source state the intent `std::min (value, maxValue)` /
`std::max (value, minValue)`, but the code compares against the wrong
bound in both steps). -/
def clamp (value minValue maxValue : ℚ) : ℚ :=
  let v1 := if value < minValue then value else minValue
  if v1 > maxValue then v1 else maxValue

/-- `AudioFile<T>::sixteenBitIntToSample`: `sample / 32768.0`. -/
def sixteenBitIntToSample (sample : ℤ) : ℚ :=
  (sample : ℚ) / 32768

/-- `AudioFile<T>::sampleToSixteenBitInt`: clamp, scale by 32767, cast to
`int16_t`. -/
def sampleToSixteenBitInt (sample : ℚ) : ℤ :=
  toInt16 (truncQ (clamp sample (-1) 1 * 32767))

/-- `AudioFile<T>::sampleToSingleByte`: clamp, map to `[0,1]`, scale by
255, cast to `uint8_t`. -/
def sampleToSingleByte (sample : ℚ) : ℕ :=
  toU8 (truncQ ((clamp sample (-1) 1 + 1) / 2 * 255))

/-- `AudioFile<T>::singleByteToSample`: `(sample - 128) / 128.0`
(`sample` is a `uint8_t`, promoted to `int` before the subtraction). -/
def singleByteToSample (sample : ℕ) : ℚ :=
  ((sample : ℚ) - 128) / 128

/-- The hand-rolled 24-bit decode of `decodeWaveFile`: assemble three
little-endian bytes, sign-extend bit 23 (`sampleAsInt | ~0xFFFFFF`), and
normalise by 8388608. -/
def twentyFourBitToSample (b0 b1 b2 : ℕ) : ℚ :=
  let raw : ℤ := b2 * 2 ^ 16 + b1 * 2 ^ 8 + b0
  let signed : ℤ := if 2 ^ 23 ≤ raw then raw - 2 ^ 24 else raw
  (signed : ℚ) / 8388608

/-- The inline 24-bit encode of `saveToWaveFile`:
`(int32_t) (samples[channel][i] * (T) 8388608.)`, then the three
little-endian low bytes of the result. -/
def sampleToTwentyFourBitBytes (sample : ℚ) : List ℕ :=
  let v : ℕ := toU32 (toInt32 (truncQ (sample * 8388608)))
  [v % 2 ^ 8, v / 2 ^ 8 % 2 ^ 8, v / 2 ^ 16 % 2 ^ 8]

/-! ## Data model -/

/-- The `AudioFileFormat` enumeration of the source. -/
inductive AudioFileFormat
  | Error
  | NotLoaded
  | Wave
  | Aiff
deriving DecidableEq, Repr

/-- Modelled from the spec: `LinkedList::resize` of the missing
`LinkedList.h`, the container's sizing capability — keep the first `n`
elements, default-fill any new positions (the spec: "adding zeros to any
new channels or new samples in a given channel"). -/
def resizeList {α : Type} (l : List α) (n : ℕ) (d : α) : List α :=
  l.take n ++ List.replicate (n - l.length) d

/-- The state owned by an `AudioFile<T>` instance: the sample buffer, the
format tag, the sample rate (`uint32_t`, so a natural below `2^32`) and
the bit depth (`int`). -/
structure AFState where
  samples : List (List ℚ)
  audioFileFormat : AudioFileFormat
  sampleRate : ℕ
  bitDepth : ℤ
deriving DecidableEq, Repr

/-- The `AudioFile<T>` constructor: bit depth 16, sample rate 44100, one
channel resized to zero samples, format tag `NotLoaded`. -/
def initialAudioFile : AFState :=
  let s0 : List (List ℚ) := resizeList [] 1 []
  { samples := s0.set 0 (resizeList (s0.getD 0 []) 0 0)
    audioFileFormat := AudioFileFormat.NotLoaded
    sampleRate := 44100
    bitDepth := 16 }

/-- `getSampleRate`: returns the `sampleRate` member. -/
def getSampleRate (st : AFState) : ℕ := st.sampleRate

/-- `getBitDepth`: returns the `bitDepth` member. -/
def getBitDepth (st : AFState) : ℤ := st.bitDepth

/-- `getNumChannels`: `(int) samples.size()`. -/
def getNumChannels (st : AFState) : ℤ := st.samples.length

/-- `isMono`: `getNumChannels() == 1`. -/
def isMono (st : AFState) : Bool := getNumChannels st = 1

/-- `isStereo`: `getNumChannels() == 2`. -/
def isStereo (st : AFState) : Bool := getNumChannels st = 2

/-- `getNumSamplesPerChannel`: `samples[0].size()` when there is at least
one channel, else 0. -/
def getNumSamplesPerChannel (st : AFState) : ℤ :=
  if 0 < st.samples.length then ((st.samples.getD 0 []).length : ℤ) else 0

/-- `getLengthInSeconds`: `(double) getNumSamplesPerChannel() / (double) sampleRate`. -/
def getLengthInSeconds (st : AFState) : ℚ :=
  (getNumSamplesPerChannel st : ℚ) / (st.sampleRate : ℚ)

/-! ## Buffer management -/

/-- The copy loop of `setAudioBuffer`, with its early `return false` when a
channel of the replacement buffer does not have `numSamples` samples.  On
success for channel `k`, `samples[k].resize (numSamples)` followed by the
element-wise copy leaves `samples[k]` equal to `newBuffer[k]`.  `fuel`
counts the remaining iterations (`getNumChannels() - k`, constant through
the loop since `List.set` preserves the length). -/
def setAudioBufferGo (newBuffer : List (List ℚ)) (numSamples : ℕ) :
    ℕ → List (List ℚ) → ℕ → Bool × List (List ℚ)
  | 0, samples, _ => (true, samples)
  | fuel + 1, samples, k =>
    if (newBuffer.getD k []).length ≠ numSamples then (false, samples)
    else setAudioBufferGo newBuffer numSamples fuel
      (samples.set k (newBuffer.getD k [])) (k + 1)

/-- `AudioFile<T>::setAudioBuffer`: reject an empty replacement buffer;
otherwise resize the owned channel list first (mutation happens before the
per-channel length validation, exactly as in the source) and copy channel
by channel, returning `false` from inside the loop on a length mismatch. -/
def setAudioBuffer (st : AFState) (newBuffer : List (List ℚ)) : Bool × AFState :=
  let numChannels : ℤ := newBuffer.length
  if numChannels ≤ 0 then (false, st)
  else
    let numSamples := (newBuffer.getD 0 []).length
    let samples0 := resizeList st.samples newBuffer.length []
    let r := setAudioBufferGo newBuffer numSamples newBuffer.length samples0 0
    (r.1, { st with samples := r.2 })

/-- `AudioFile<T>::setNumChannels`: resize the channel list; when growing,
each new channel is resized to the original per-channel sample count and
zero-filled.  Modelled from the spec for the container's `resize`/`fill`
capability (the source's own doc comment: "New channels will have the
correct number of samples and be initialised to zero"). -/
def setNumChannels (st : AFState) (numChannels : ℤ) : AFState :=
  let originalNumChannels := st.samples.length
  let originalNumSamplesPerChannel :=
    if 0 < st.samples.length then (st.samples.getD 0 []).length else 0
  let n := numChannels.toNat
  let s1 := resizeList st.samples n []
  let s2 :=
    if originalNumChannels < n then
      (List.range n).map fun i =>
        if originalNumChannels ≤ i then
          List.replicate originalNumSamplesPerChannel (0 : ℚ)
        else s1.getD i []
    else s1
  { st with samples := s2 }

/-! ## Decode -/

/-- ASCII bytes of `"RIFF"`. -/
def strRIFF : List ℕ := [82, 73, 70, 70]

/-- ASCII bytes of `"WAVE"`. -/
def strWAVE : List ℕ := [87, 65, 86, 69]

/-- ASCII bytes of `"fmt"` — the three-character marker the source
actually searches for (`getIndexOfString (fileData, "fmt")`). -/
def strFmt : List ℕ := [102, 109, 116]

/-- ASCII bytes of `"fmt "` (four characters, as emitted on encode). -/
def strFmtSpace : List ℕ := [102, 109, 116, 32]

/-- ASCII bytes of `"data"`. -/
def strData : List ℕ := [100, 97, 116, 97]

/-- `AudioFile<T>::determineAudioFileFormat`: `Wave` if the first four
bytes read `"RIFF"`, else `Error` (AIFF support is commented out). -/
def determineAudioFileFormat (fileData : List ℕ) : AudioFileFormat :=
  if splitString fileData 0 4 = strRIFF then AudioFileFormat.Wave
  else AudioFileFormat.Error

/-- One sample conversion of the decode loop at byte offset
`sampleIndex`, by bit depth.  The loop's final `else return false` branch
is unreachable: the bit depth was already checked to be 8, 16 or 24
before the loop, so the model is total over those three cases. -/
def decodeSampleAt (fileData : List ℕ) (bitDepth : ℤ) (sampleIndex : ℤ) : ℚ :=
  if bitDepth = 8 then singleByteToSample (byteAt fileData sampleIndex)
  else if bitDepth = 16 then sixteenBitIntToSample (twoBytesToInt fileData sampleIndex)
  else twentyFourBitToSample (byteAt fileData sampleIndex)
    (byteAt fileData (sampleIndex + 1)) (byteAt fileData (sampleIndex + 2))

/-- The nested decode loop: for each sample index `i` and then each
channel `c`, append the sample decoded at
`samplesStartIndex + numBytesPerBlock*i + c*numBytesPerSample` to channel
`c`'s list, exactly in the source's iteration order. -/
def decodeLoop (fileData : List ℕ) (bitDepth : ℤ)
    (samplesStartIndex numBytesPerBlock numBytesPerSample : ℤ)
    (numChannels numSamples : ℕ) (init : List (List ℚ)) : List (List ℚ) :=
  (List.range numSamples).foldl
    (fun acc (i : ℕ) =>
      (List.range numChannels).foldl
        (fun acc (c : ℕ) =>
          acc.set c (acc.getD c [] ++
            [decodeSampleAt fileData bitDepth
              (samplesStartIndex + numBytesPerBlock * (i : ℤ) +
                (c : ℤ) * numBytesPerSample)]))
        acc)
    init

/-- `int indexOfFormatChunk = getIndexOfString (fileData, "fmt");` -/
def fmtChunkIndex (fileData : List ℕ) : ℤ := getIndexOfString fileData strFmt

/-- `int indexOfDataChunk = getIndexOfString (fileData, "data");` -/
def dataChunkIndex (fileData : List ℕ) : ℤ := getIndexOfString fileData strData

/-- `int16_t audioFormat = twoBytesToInt (fileData, f + 8);` -/
def decAudioFormat (fileData : List ℕ) : ℤ :=
  twoBytesToInt fileData (fmtChunkIndex fileData + 8)

/-- `int16_t numChannels = twoBytesToInt (fileData, f + 10);` -/
def decNumChannels (fileData : List ℕ) : ℤ :=
  twoBytesToInt fileData (fmtChunkIndex fileData + 10)

/-- `sampleRate = (uint32_t) fourBytesToInt (fileData, f + 12);` -/
def decSampleRate (fileData : List ℕ) : ℕ :=
  toU32 (fourBytesToInt fileData (fmtChunkIndex fileData + 12))

/-- `int32_t numBytesPerSecond = fourBytesToInt (fileData, f + 16);` -/
def decNumBytesPerSecond (fileData : List ℕ) : ℤ :=
  fourBytesToInt fileData (fmtChunkIndex fileData + 16)

/-- `int16_t numBytesPerBlock = twoBytesToInt (fileData, f + 20);` -/
def decNumBytesPerBlock (fileData : List ℕ) : ℤ :=
  twoBytesToInt fileData (fmtChunkIndex fileData + 20)

/-- `bitDepth = (int) twoBytesToInt (fileData, f + 22);` -/
def decBitDepth (fileData : List ℕ) : ℤ :=
  twoBytesToInt fileData (fmtChunkIndex fileData + 22)

/-- `int numBytesPerSample = bitDepth / 8;` (with the decoded bit depth). -/
def decNumBytesPerSample (fileData : List ℕ) : ℤ :=
  Int.tdiv (decBitDepth fileData) 8

/-- `int32_t dataChunkSize = fourBytesToInt (fileData, d + 4);` -/
def decDataChunkSize (fileData : List ℕ) : ℤ :=
  fourBytesToInt fileData (dataChunkIndex fileData + 4)

/-- `int numSamples = dataChunkSize / (numChannels * bitDepth / 8);` -/
def decNumSamples (fileData : List ℕ) : ℤ :=
  Int.tdiv (decDataChunkSize fileData)
    (Int.tdiv (decNumChannels fileData * decBitDepth fileData) 8)

/-- `int samplesStartIndex = indexOfDataChunk + 8;` -/
def samplesStartIndex (fileData : List ℕ) : ℤ := dataChunkIndex fileData + 8

/-- The byte-rate / block-align header consistency check of
`decodeWaveFile`.  It mixes `int` and `uint32_t`, so C's usual arithmetic
conversions make the byte-rate comparison unsigned, modelled with the
`% 2^32` reductions. -/
def headerInconsistent (fileData : List ℕ) : Prop :=
  toU32 (decNumBytesPerSecond fileData) ≠
    (decNumChannels fileData).toNat * decSampleRate fileData *
      toU32 (decBitDepth fileData) % 2 ^ 32 / 8 ∨
  decNumBytesPerBlock fileData ≠ decNumChannels fileData * decNumBytesPerSample fileData

instance (fileData : List ℕ) : Decidable (headerInconsistent fileData) := by
  unfold headerInconsistent
  infer_instance

/-- The metadata mutation decode performs as soon as it has located the
format chunk: `sampleRate = (uint32_t) fourBytesToInt (fileData, f + 12)`
and `bitDepth = (int) twoBytesToInt (fileData, f + 22)` are member
assignments made before any of the validation checks. -/
def decodeSetMeta (st : AFState) (fileData : List ℕ) : AFState :=
  { st with sampleRate := decSampleRate fileData
            bitDepth := decBitDepth fileData }

/-- `AudioFile<T>::decodeWaveFile`.  The source's undeclared
`headerChunkID` is read as the `header` variable assigned two lines above
(the commented-out declaration shows the intent); the `dataChunkID`
sub-range is extracted but never inspected, so it is omitted. -/
def decodeWaveFile (st : AFState) (fileData : List ℕ) : Bool × AFState :=
  if dataChunkIndex fileData = -1 ∨ fmtChunkIndex fileData = -1 ∨
      splitString fileData 0 4 ≠ strRIFF ∨ splitString fileData 8 12 ≠ strWAVE then
    (false, st)
  else if decAudioFormat fileData ≠ 1 then (false, decodeSetMeta st fileData)
  else if decNumChannels fileData < 1 ∨ 2 < decNumChannels fileData then
    (false, decodeSetMeta st fileData)
  else if headerInconsistent fileData then (false, decodeSetMeta st fileData)
  else if decBitDepth fileData ≠ 8 ∧ decBitDepth fileData ≠ 16 ∧
      decBitDepth fileData ≠ 24 then (false, decodeSetMeta st fileData)
  else
    (true, { decodeSetMeta st fileData with
      samples := decodeLoop fileData (decBitDepth fileData)
        (samplesStartIndex fileData) (decNumBytesPerBlock fileData)
        (decNumBytesPerSample fileData) (decNumChannels fileData).toNat
        (decNumSamples fileData).toNat
        (List.replicate (decNumChannels fileData).toNat []) })

/-- `AudioFile<T>::load` on an in-memory byte stream: sniff the format,
then decode as WAVE or fail. -/
def load (st : AFState) (fileData : List ℕ) : Bool × AFState :=
  let fmt := determineAudioFileFormat fileData
  let st := { st with audioFileFormat := fmt }
  if fmt = AudioFileFormat.Wave then decodeWaveFile st fileData
  else (false, st)

/-! ## Encode -/

/-- `addStringToFileData`: append the ASCII bytes of `s`. -/
def addStringToFileData (fileData s : List ℕ) : List ℕ := fileData ++ s

/-- `addInt32ToFileData`, little-endian: append the four bytes
`i & 0xFF, (i >> 8) & 0xFF, (i >> 16) & 0xFF, (i >> 24) & 0xFF`. -/
def addInt32ToFileData (fileData : List ℕ) (i : ℤ) : List ℕ :=
  let u := toU32 i
  fileData ++ [u % 2 ^ 8, u / 2 ^ 8 % 2 ^ 8, u / 2 ^ 16 % 2 ^ 8, u / 2 ^ 24 % 2 ^ 8]

/-- `addInt16ToFileData`, little-endian: append the two bytes
`i & 0xFF, (i >> 8) & 0xFF`. -/
def addInt16ToFileData (fileData : List ℕ) (i : ℤ) : List ℕ :=
  let u := toU16 i
  fileData ++ [u % 2 ^ 8, u / 2 ^ 8 % 2 ^ 8]

/-- `int32_t dataChunkSize = getNumSamplesPerChannel() * (getNumChannels() * bitDepth / 8);` -/
def dataChunkSizeEnc (st : AFState) : ℤ :=
  toInt32 (getNumSamplesPerChannel st * Int.tdiv (getNumChannels st * st.bitDepth) 8)

/-- The value whose bytes the source writes as the byte-rate field:
`(uint32_t) ((getNumChannels() * sampleRate * bitDepth) / 8)` — the `int`
operands are converted to `uint32_t` by the usual arithmetic conversions,
so this is an unsigned (mod `2^32`) product followed by unsigned division. -/
def numBytesPerSecondEnc (st : AFState) : ℕ :=
  st.samples.length * st.sampleRate * toU32 st.bitDepth % 2 ^ 32 / 8

/-- `int16_t numBytesPerBlock = getNumChannels() * (bitDepth / 8);` -/
def numBytesPerBlockEnc (st : AFState) : ℤ :=
  toInt16 (getNumChannels st * Int.tdiv st.bitDepth 8)

/-- The 44-byte RIFF/WAVE header-and-chunk-metadata prefix assembled by
`saveToWaveFile` before the sample loop, by the exact sequence of
`addStringToFileData` / `addInt32ToFileData` / `addInt16ToFileData`
calls of the source. -/
def assembleHeader (st : AFState) : List ℕ :=
  let fileData : List ℕ := []
  let fileData := addStringToFileData fileData strRIFF
  let fileData := addInt32ToFileData fileData (toInt32 (4 + 24 + 8 + dataChunkSizeEnc st))
  let fileData := addStringToFileData fileData strWAVE
  let fileData := addStringToFileData fileData strFmtSpace
  let fileData := addInt32ToFileData fileData 16
  let fileData := addInt16ToFileData fileData 1
  let fileData := addInt16ToFileData fileData (toU16 (getNumChannels st))
  let fileData := addInt32ToFileData fileData (st.sampleRate : ℤ)
  let fileData := addInt32ToFileData fileData (numBytesPerSecondEnc st : ℤ)
  let fileData := addInt16ToFileData fileData (numBytesPerBlockEnc st)
  let fileData := addInt16ToFileData fileData (toU16 st.bitDepth)
  let fileData := addStringToFileData fileData strData
  addInt32ToFileData fileData (dataChunkSizeEnc st)

/-- One sample of the encode loop: the bytes appended for one
`samples[channel][i]` at the configured bit depth, or `none` for the
loop's `return false` on an unsupported bit depth. -/
def encodeSample (bitDepth : ℤ) (sample : ℚ) : Option (List ℕ) :=
  if bitDepth = 8 then some [sampleToSingleByte sample]
  else if bitDepth = 16 then some (addInt16ToFileData [] (sampleToSixteenBitInt sample))
  else if bitDepth = 24 then some (sampleToTwentyFourBitBytes sample)
  else none

/-- The sample at `samples[channel][i]`; out-of-range access on the
container yields the default-constructed sample 0. -/
def sampleAt (st : AFState) (channel i : ℕ) : ℚ :=
  (st.samples.getD channel []).getD i 0

/-- The interleaved payload of the encode loop: for each sample index
`i`, for each channel, append that sample's bytes; `none` as soon as the
bit depth is unsupported. -/
def encodePayload (st : AFState) : Option (List ℕ) :=
  (List.range (getNumSamplesPerChannel st).toNat).foldlM
    (fun acc i =>
      (List.range st.samples.length).foldlM
        (fun acc channel =>
          (encodeSample st.bitDepth (sampleAt st channel i)).map (acc ++ ·))
        acc)
    []

/-- The full byte sequence assembled by `saveToWaveFile` (header then
payload), before the final self-audit; `none` when the sample loop hit an
unsupported bit depth. -/
def assembleWave (st : AFState) : Option (List ℕ) :=
  (encodePayload st).map (assembleHeader st ++ ·)

/-- `AudioFile<T>::saveToWaveFile` up to the hand-off to the external
byte writer: assemble the file, then perform the self-audit
`fileSizeInBytes != (fileData.size() - 8) || dataChunkSize != (getNumSamplesPerChannel() * getNumChannels() * (bitDepth / 8))`;
`none` models every `return false` path. -/
def saveToWaveFile (st : AFState) : Option (List ℕ) :=
  match assembleWave st with
  | none => none
  | some fileData =>
    if toInt32 (4 + 24 + 8 + dataChunkSizeEnc st) ≠ (fileData.length : ℤ) - 8 ∨
        dataChunkSizeEnc st ≠
          getNumSamplesPerChannel st * getNumChannels st * Int.tdiv st.bitDepth 8 then
      none
    else some fileData

/-- The little-endian two-byte encoding of a value, for stating the
layout claims about the emitted header. -/
def le16bytes (n : ℕ) : List ℕ := [n % 2 ^ 8, n / 2 ^ 8 % 2 ^ 8]

/-- The little-endian four-byte encoding of a value, for stating the
layout claims about the emitted header. -/
def le32bytes (n : ℕ) : List ℕ :=
  [n % 2 ^ 8, n / 2 ^ 8 % 2 ^ 8, n / 2 ^ 16 % 2 ^ 8, n / 2 ^ 24 % 2 ^ 8]

/-! ## Concrete test vectors -/

/-- A mono, 8000 Hz, 16-bit buffer holding the single sample 0.0. -/
def roundTripInput : AFState :=
  { samples := [[0]]
    audioFileFormat := AudioFileFormat.NotLoaded
    sampleRate := 8000
    bitDepth := 16 }

/-- A valid 46-byte mono 16-bit 8000 Hz PCM WAVE stream with one sample
(the stream `saveToWaveFile` produces for `roundTripInput`). -/
def validStream : List ℕ :=
  [82, 73, 70, 70, 38, 0, 0, 0, 87, 65, 86, 69,
   102, 109, 116, 32, 16, 0, 0, 0, 1, 0, 1, 0, 64, 31, 0, 0,
   128, 62, 0, 0, 2, 0, 16, 0,
   100, 97, 116, 97, 2, 0, 0, 0, 255, 127]

/-- `validStream` with its first four bytes altered away from `"RIFF"`. -/
def streamNotRIFF : List ℕ := 82 :: 73 :: 70 :: 71 :: validStream.drop 4

/-- `validStream` with the format-chunk `audioFormat` field set to 2. -/
def streamCompressed : List ℕ := validStream.set 20 2

/-- `validStream` with the format-chunk `numChannels` field set to 3. -/
def streamThreeChannels : List ℕ := validStream.set 22 3

/-- `validStream` with the byte-rate field corrupted (16001 instead of
16000). -/
def streamBadByteRate : List ℕ := validStream.set 28 65

/-! ## Theorems -/

/-- **C2** (code bug).  The claim says `sampleToSixteenBitInt` clamps to
`[-1.0, 1.0]` and saturates, `sampleToSixteenBitInt(-2.0) = -32768`.  In
the source, `clamp`'s two comparisons each test against the wrong bound
(`value = (value < minValue) ? value : minValue` is `min(value, minValue)`,
contradicting the adjacent comment `// value = std::min (value, maxValue)`),
so `clamp` returns its `maxValue` argument for every input and
`sampleToSixteenBitInt` is constantly 32767: in particular it maps `-2.0`
to 32767, not to `-32768`. -/
theorem claim_C2_sampleToSixteenBitInt_code_bug :
    sampleToSixteenBitInt (-2) = 32767 ∧
    sampleToSixteenBitInt 2 = 32767 ∧
    clamp 0 (-1) 1 = 1 := by
  decide

/-- **C6** (code bug).  The claim says int → sample → int is within one
quantization step for all depths in {8,16,24}.  Because `clamp` always
returns its upper bound, the 16-bit composition sends 0 to 32767 and the
8-bit composition sends 128 to 255 — tens of thousands (resp. 127) of
quantization steps away.  (The 24-bit path, which has no clamp, does
round-trip exactly: `1048576 → 1/8 → 1048576` shown as contrast.) -/
theorem claim_C6_int_sample_int_code_bug :
    sampleToSixteenBitInt (sixteenBitIntToSample 0) = 32767 ∧
    sampleToSingleByte (singleByteToSample 128) = 255 ∧
    sampleToTwentyFourBitBytes (twentyFourBitToSample 0 0 16) = [0, 0, 16] := by
  decide

/-- **C10** (confirmed).  A freshly constructed `AudioFile` reports bit
depth 16, sample rate 44100, one channel with zero samples (mono, zero
samples per channel, zero length in seconds), and format tag
`NotLoaded`. -/
theorem claim_C10_initial_state :
    getBitDepth initialAudioFile = 16 ∧
    getSampleRate initialAudioFile = 44100 ∧
    getNumChannels initialAudioFile = 1 ∧
    isMono initialAudioFile = true ∧
    getNumSamplesPerChannel initialAudioFile = 0 ∧
    getLengthInSeconds initialAudioFile = 0 ∧
    initialAudioFile.audioFileFormat = AudioFileFormat.NotLoaded ∧
    initialAudioFile.samples = [[]] := by
  decide

/-- **C1** (code bug).  The claim says a 16-bit encode/decode round trip
reproduces every sample within 1/32768.  Because the broken `clamp` makes
`sampleToSixteenBitInt` constantly 32767, encoding the mono buffer
`[[0.0]]` and decoding the result yields the sample `32767/32768`
(≈ 0.99997), which is not within 1/32768 of the original 0.0 — though the
channel count, sample count and sample rate are recovered exactly, the
sample-value tolerance is violated. -/
theorem claim_C1_roundtrip_code_bug :
    (saveToWaveFile roundTripInput).map (fun bs => load initialAudioFile bs) =
      some (true,
        { samples := [[32767 / 32768]]
          audioFileFormat := AudioFileFormat.Wave
          sampleRate := 8000
          bitDepth := 16 }) ∧
    ¬ |(32767 : ℚ) / 32768 - sampleAt roundTripInput 0 0| ≤ 1 / 32768 := by
  constructor
  · decide
  · decide

/-- **C3** (confirmed).  `load` returns `false` whenever: the stream does
not begin with `"RIFF"`; the format-chunk `audioFormat` field is anything
other than 1; the `numChannels` field is outside {1,2}; or the byte-rate
field fails the (unsigned, as computed by the source) cross-check against
`numChannels * sampleRate * bitDepth / 8`.  Each implication holds for
every byte stream and every prior state. -/
theorem claim_C3_load_rejections :
    (∀ st fileData, splitString fileData 0 4 ≠ strRIFF →
      (load st fileData).1 = false) ∧
    (∀ st fileData, decAudioFormat fileData ≠ 1 →
      (load st fileData).1 = false) ∧
    (∀ st fileData,
      decNumChannels fileData < 1 ∨ 2 < decNumChannels fileData →
      (load st fileData).1 = false) ∧
    (∀ st fileData,
      toU32 (decNumBytesPerSecond fileData) ≠
        (decNumChannels fileData).toNat * decSampleRate fileData *
          toU32 (decBitDepth fileData) % 2 ^ 32 / 8 →
      (load st fileData).1 = false) := by
  refine ⟨?_, ?_, ?_, ?_⟩ <;> intro st fileData h <;>
    unfold load determineAudioFileFormat decodeWaveFile <;>
    split_ifs <;> simp_all [headerInconsistent]

/-- Witness for **C3**: all four rejection cases evaluated on concrete
streams derived from `validStream`. -/
theorem claim_C3_load_rejections_witness :
    (splitString streamNotRIFF 0 4 ≠ strRIFF ∧
      (load initialAudioFile streamNotRIFF).1 = false) ∧
    (decAudioFormat streamCompressed = 2 ∧
      (load initialAudioFile streamCompressed).1 = false) ∧
    (decNumChannels streamThreeChannels = 3 ∧
      (load initialAudioFile streamThreeChannels).1 = false) ∧
    (toU32 (decNumBytesPerSecond streamBadByteRate) ≠
      (decNumChannels streamBadByteRate).toNat * decSampleRate streamBadByteRate *
        toU32 (decBitDepth streamBadByteRate) % 2 ^ 32 / 8 ∧
      (load initialAudioFile streamBadByteRate).1 = false) :=
  ⟨⟨by decide, claim_C3_load_rejections.1 initialAudioFile streamNotRIFF (by decide)⟩,
   ⟨by decide, claim_C3_load_rejections.2.1 initialAudioFile streamCompressed (by decide)⟩,
   ⟨by decide, claim_C3_load_rejections.2.2.1 initialAudioFile streamThreeChannels
      (by decide)⟩,
   ⟨by decide, claim_C3_load_rejections.2.2.2 initialAudioFile streamBadByteRate
      (by decide)⟩⟩

/-! Helper lemmas about the `setAudioBuffer` copy loop. -/

theorem resizeList_length {α : Type} (l : List α) (n : ℕ) (d : α) :
    (resizeList l n d).length = n := by
  simp [resizeList]
  omega

theorem setAudioBufferGo_false (nb : List (List ℚ)) (ns : ℕ) :
    ∀ fuel (samples : List (List ℚ)) (j k : ℕ), j ≤ k → k < j + fuel →
      (nb.getD k []).length ≠ ns →
      (setAudioBufferGo nb ns fuel samples j).1 = false := by
  intro fuel
  induction fuel with
  | zero => intro samples j k hjk hk _; omega
  | succ fuel ih =>
    intro samples j k hjk hk hne
    rw [setAudioBufferGo]
    by_cases hj : (nb.getD j []).length ≠ ns
    · rw [if_pos hj]
    · rw [if_neg hj]
      have hkj : j ≠ k := fun e => hj (by rw [e]; exact hne)
      exact ih _ (j + 1) k (by omega) (by omega) hne

theorem setAudioBufferGo_true (nb : List (List ℚ)) (ns : ℕ) :
    ∀ fuel (samples : List (List ℚ)) (j : ℕ),
      samples.length = nb.length → j + fuel = nb.length →
      (∀ k, j ≤ k → k < nb.length → (nb.getD k []).length = ns) →
      (∀ i, i < j → samples.getD i [] = nb.getD i []) →
      setAudioBufferGo nb ns fuel samples j = (true, nb) := by
  intro fuel
  induction fuel with
  | zero =>
    intro samples j hlen hj _ hagree
    rw [setAudioBufferGo]
    have hsn : samples = nb := by
      refine List.ext_getElem (by omega) fun i h1 h2 => ?_
      have := hagree i (by omega)
      rw [List.getD_eq_getElem?_getD, List.getD_eq_getElem?_getD,
        List.getElem?_eq_getElem h1, List.getElem?_eq_getElem h2] at this
      simpa using this
    rw [hsn]
  | succ fuel ih =>
    intro samples j hlen hj hall hagree
    have hjlt : j < nb.length := by omega
    rw [setAudioBufferGo, if_neg (not_ne_iff.mpr (hall j le_rfl hjlt))]
    refine ih _ (j + 1) (by simpa using hlen) (by omega)
      (fun k hk hk2 => hall k (by omega) hk2) ?_
    intro i hi
    rcases Nat.lt_or_ge i j with hij | hij
    · rw [List.getD_eq_getElem?_getD, List.getElem?_set_ne (by omega : j ≠ i),
        ← List.getD_eq_getElem?_getD]
      exact hagree i hij
    · have hij' : i = j := by omega
      subst hij'
      rw [List.getD_eq_getElem?_getD, List.getElem?_set_self (by omega)]
      rfl

/-- **C7** (corrected), counterexample to the claim as stated: on the
fresh instance (owned buffer `[[]]`), `setAudioBuffer` with the
two-channel replacement `[[1/2], []]` (channels of unequal length)
returns `false` but does NOT leave the owned buffer unchanged — the
channel-length validation happens inside the copy loop, after the owned
buffer has already been resized and channel 0 copied. -/
theorem claim_C7_counterexample :
    (setAudioBuffer initialAudioFile [[1 / 2], []]).1 = false ∧
    (setAudioBuffer initialAudioFile [[1 / 2], []]).2 ≠ initialAudioFile := by
  decide

/-- **C7** (amended): `setAudioBuffer` returns `false` and leaves the
buffer unchanged when the replacement has zero channels; it returns
`false` (but may have partially overwritten the owned buffer) when some
channel's length differs from channel 0's; and when the replacement is
nonempty with all channels of equal length it copies every sample and
returns `true`. -/
theorem claim_C7_setAudioBuffer_amended :
    (∀ st, setAudioBuffer st [] = (false, st)) ∧
    (∀ st newBuffer,
      (∃ k, k < newBuffer.length ∧
        (newBuffer.getD k []).length ≠ (newBuffer.getD 0 []).length) →
      (setAudioBuffer st newBuffer).1 = false) ∧
    (∀ st newBuffer, 0 < newBuffer.length →
      (∀ k, k < newBuffer.length →
        (newBuffer.getD k []).length = (newBuffer.getD 0 []).length) →
      setAudioBuffer st newBuffer = (true, { st with samples := newBuffer })) := by
  refine ⟨fun st => by simp [setAudioBuffer], ?_, ?_⟩
  · intro st newBuffer ⟨k, hk, hne⟩
    have hpos : 0 < newBuffer.length := by omega
    rw [setAudioBuffer, if_neg (by omega)]
    exact setAudioBufferGo_false newBuffer (newBuffer.getD 0 []).length
      newBuffer.length (resizeList st.samples newBuffer.length []) 0 k
      (Nat.zero_le k) (by omega) hne
  · intro st newBuffer hpos hall
    rw [setAudioBuffer, if_neg (by omega)]
    have hgo := setAudioBufferGo_true newBuffer (newBuffer.getD 0 []).length
      newBuffer.length (resizeList st.samples newBuffer.length []) 0
      (resizeList_length _ _ _) (by omega) (fun k _ hk2 => hall k hk2)
      (fun i hi => absurd hi (by omega))
    show ((setAudioBufferGo newBuffer (newBuffer.getD 0 []).length newBuffer.length
        (resizeList st.samples newBuffer.length []) 0).1,
      { st with samples := (setAudioBufferGo newBuffer (newBuffer.getD 0 []).length
          newBuffer.length (resizeList st.samples newBuffer.length []) 0).2 }) =
      (true, { st with samples := newBuffer })
    rw [hgo]

/-- Witness for **C7** (amended): the three cases instantiated on
concrete buffers. -/
theorem claim_C7_setAudioBuffer_amended_witness :
    setAudioBuffer initialAudioFile [] = (false, initialAudioFile) ∧
    ((∃ k, k < ([[1 / 2], []] : List (List ℚ)).length ∧
        (([[1 / 2], []] : List (List ℚ)).getD k []).length ≠
          (([[1 / 2], []] : List (List ℚ)).getD 0 []).length) ∧
      (setAudioBuffer initialAudioFile [[1 / 2], []]).1 = false) ∧
    (0 < ([[1 / 2], [3]] : List (List ℚ)).length ∧
      (setAudioBuffer initialAudioFile [[1 / 2], [3]]) =
        (true, { initialAudioFile with samples := [[1 / 2], [3]] })) :=
  ⟨claim_C7_setAudioBuffer_amended.1 initialAudioFile,
   ⟨⟨1, by decide, by decide⟩,
    claim_C7_setAudioBuffer_amended.2.1 initialAudioFile [[1 / 2], []]
      ⟨1, by decide, by decide⟩⟩,
   ⟨by decide,
    claim_C7_setAudioBuffer_amended.2.2 initialAudioFile [[1 / 2], [3]] (by decide)
      (by decide)⟩⟩

/-- **C8** (confirmed).  `setNumChannels` growing from 1 channel to 3
keeps channel 0's data and gives each of the two new channels exactly the
existing per-channel sample count, zero-filled; shrinking from 3 channels
to 1 discards channels 1 and 2 and keeps channel 0 untouched.  (The
container's `resize`/`fill` semantics are modelled from the spec and the
source's own doc comment, `LinkedList.h` not being part of the sources.) -/
theorem claim_C8_setNumChannels :
    (∀ st s0, st.samples = [s0] →
      (setNumChannels st 3).samples =
        [s0, List.replicate s0.length 0, List.replicate s0.length 0]) ∧
    (∀ st s0 s1 s2, st.samples = [s0, s1, s2] →
      (setNumChannels st 1).samples = [s0]) := by
  constructor
  · intro st s0 hs
    have hr : List.range 3 = [0, 1, 2] := by decide
    simp [setNumChannels, resizeList, hs, hr]
  · intro st s0 s1 s2 hs
    simp [setNumChannels, resizeList, hs]

/-- Witness for **C8**: growing `[[5]]` to 3 channels and shrinking
`[[5], [6], [7]]` to 1 channel, concretely. -/
theorem claim_C8_setNumChannels_witness :
    ({ samples := [[5]], audioFileFormat := AudioFileFormat.NotLoaded,
       sampleRate := 44100, bitDepth := 16 : AFState }.samples = [[5]] ∧
      (setNumChannels
        { samples := [[5]], audioFileFormat := AudioFileFormat.NotLoaded,
          sampleRate := 44100, bitDepth := 16 } 3).samples =
        [[5], [0], [0]]) ∧
    ({ samples := [[5], [6], [7]], audioFileFormat := AudioFileFormat.NotLoaded,
       sampleRate := 44100, bitDepth := 16 : AFState }.samples = [[5], [6], [7]] ∧
      (setNumChannels
        { samples := [[5], [6], [7]], audioFileFormat := AudioFileFormat.NotLoaded,
          sampleRate := 44100, bitDepth := 16 } 1).samples = [[5]]) :=
  ⟨⟨rfl, by
      have := claim_C8_setNumChannels.1
        { samples := [[5]], audioFileFormat := AudioFileFormat.NotLoaded,
          sampleRate := 44100, bitDepth := 16 } [5] rfl
      simpa using this⟩,
   ⟨rfl, claim_C8_setNumChannels.2
      { samples := [[5], [6], [7]], audioFileFormat := AudioFileFormat.NotLoaded,
        sampleRate := 44100, bitDepth := 16 } [5] [6] [7] rfl⟩⟩

/-! Helper lemmas about the wrap-around conversions. -/

theorem toU32_toInt32 (x : ℤ) : toU32 (toInt32 x) = toU32 x := by
  unfold toU32 toInt32
  omega

theorem toU16_toInt16 (x : ℤ) : toU16 (toInt16 x) = toU16 x := by
  unfold toU16 toInt16
  omega

theorem toU16_cast_toU16 (x : ℤ) : toU16 ((toU16 x : ℕ) : ℤ) = toU16 x := by
  unfold toU16
  omega

theorem toU16_natCast_small (n : ℕ) (h : n < 2 ^ 16) : toU16 (n : ℤ) = n := by
  unfold toU16
  omega

theorem toU32_natCast_small (n : ℕ) (h : n < 2 ^ 32) : toU32 (n : ℤ) = n := by
  unfold toU32
  omega

theorem toInt32_natCast_small (n : ℕ) (h : n < 2 ^ 31) : toInt32 (n : ℤ) = n := by
  unfold toInt32
  omega

theorem numBytesPerSecondEnc_lt (st : AFState) : numBytesPerSecondEnc st < 2 ^ 32 := by
  unfold numBytesPerSecondEnc
  omega

theorem getNumSamplesPerChannel_eq (st : AFState) :
    getNumSamplesPerChannel st = ((st.samples.getD 0 []).length : ℤ) := by
  unfold getNumSamplesPerChannel
  split
  · rfl
  · next h =>
    have h0 : st.samples = [] := List.length_eq_zero.mp (by omega)
    simp [h0]

/-! Helper lemmas about the encode loop. -/

theorem assembleHeader_eq (st : AFState) :
    assembleHeader st =
      strRIFF ++ le32bytes (toU32 (toInt32 (4 + 24 + 8 + dataChunkSizeEnc st))) ++
      strWAVE ++ strFmtSpace ++ le32bytes (toU32 16) ++ le16bytes (toU16 1) ++
      le16bytes (toU16 ((toU16 (getNumChannels st) : ℕ) : ℤ)) ++
      le32bytes (toU32 (st.sampleRate : ℤ)) ++
      le32bytes (toU32 ((numBytesPerSecondEnc st : ℕ) : ℤ)) ++
      le16bytes (toU16 (numBytesPerBlockEnc st)) ++
      le16bytes (toU16 ((toU16 st.bitDepth : ℕ) : ℤ)) ++
      strData ++ le32bytes (toU32 (dataChunkSizeEnc st)) := by
  rfl

theorem assembleHeader_length (st : AFState) : (assembleHeader st).length = 44 := by
  rw [assembleHeader_eq]
  simp [le32bytes, le16bytes, strRIFF, strWAVE, strFmtSpace, strData]

theorem encodeSample_spec (d : ℤ) (hd : d = 8 ∨ d = 16 ∨ d = 24) (s : ℚ) :
    ∃ b, encodeSample d s = some b ∧ b.length = d.toNat / 8 := by
  rcases hd with h | h | h <;> subst h <;> refine ⟨_, rfl, ?_⟩ <;>
    simp [encodeSample, addInt16ToFileData, sampleToTwentyFourBitBytes]

theorem encodeInner_spec (st : AFState)
    (hd : st.bitDepth = 8 ∨ st.bitDepth = 16 ∨ st.bitDepth = 24) (i : ℕ)
    (l : List ℕ) :
    ∀ acc : List ℕ, ∃ r,
      l.foldlM (fun acc channel =>
        (encodeSample st.bitDepth (sampleAt st channel i)).map (acc ++ ·)) acc = some r ∧
      r.length = acc.length + l.length * (st.bitDepth.toNat / 8) := by
  induction l with
  | nil => intro acc; exact ⟨acc, rfl, by simp⟩
  | cons c l ih =>
    intro acc
    obtain ⟨b, hb, hbl⟩ := encodeSample_spec st.bitDepth hd (sampleAt st c i)
    obtain ⟨r, hr, hrl⟩ := ih (acc ++ b)
    refine ⟨r, ?_, ?_⟩
    · rw [List.foldlM_cons, hb]
      simpa using hr
    · rw [hrl]
      simp [hbl]
      ring

theorem encodePayloadGo_spec (st : AFState)
    (hd : st.bitDepth = 8 ∨ st.bitDepth = 16 ∨ st.bitDepth = 24) (L : List ℕ) :
    ∀ acc : List ℕ, ∃ r,
      L.foldlM (fun acc i =>
        (List.range st.samples.length).foldlM (fun acc channel =>
          (encodeSample st.bitDepth (sampleAt st channel i)).map (acc ++ ·)) acc) acc =
        some r ∧
      r.length = acc.length +
        L.length * (st.samples.length * (st.bitDepth.toNat / 8)) := by
  induction L with
  | nil => intro acc; exact ⟨acc, rfl, by simp⟩
  | cons i L ih =>
    intro acc
    obtain ⟨r1, hr1, hl1⟩ := encodeInner_spec st hd i (List.range st.samples.length) acc
    obtain ⟨r, hr, hl⟩ := ih r1
    refine ⟨r, ?_, ?_⟩
    · rw [List.foldlM_cons, hr1]
      simpa using hr
    · rw [hl, hl1]
      simp [List.length_range]
      ring

theorem encodePayload_spec (st : AFState)
    (hd : st.bitDepth = 8 ∨ st.bitDepth = 16 ∨ st.bitDepth = 24) :
    ∃ p, encodePayload st = some p ∧
      p.length = (getNumSamplesPerChannel st).toNat *
        (st.samples.length * (st.bitDepth.toNat / 8)) := by
  obtain ⟨r, hr, hl⟩ :=
    encodePayloadGo_spec st hd (List.range (getNumSamplesPerChannel st).toNat) []
  exact ⟨r, hr, by simpa [List.length_range] using hl⟩

/-- A valid bit depth is `8 * k` for `k ∈ {1,2,3}`; packaged with the
division facts the encode arithmetic needs. -/
theorem depth_structure (st : AFState)
    (hdepth : st.bitDepth = 8 ∨ st.bitDepth = 16 ∨ st.bitDepth = 24) :
    ∃ k : ℕ, 0 < k ∧ st.bitDepth.toNat / 8 = k ∧
      Int.tdiv st.bitDepth 8 = (k : ℤ) ∧
      Int.tdiv ((st.samples.length : ℤ) * st.bitDepth) 8 =
        (st.samples.length : ℤ) * k := by
  have cancel : ∀ x : ℤ, Int.tdiv (x * 8) 8 = x :=
    fun x => Int.mul_tdiv_cancel x (by norm_num)
  rcases hdepth with h | h | h
  · refine ⟨1, one_pos, by rw [h]; rfl, by rw [h]; rfl, ?_⟩
    rw [h, show ((st.samples.length : ℤ) * 8 = st.samples.length * (1 : ℕ) * 8) from by
      push_cast; ring, cancel]
  · refine ⟨2, by norm_num, by rw [h]; rfl, by rw [h]; rfl, ?_⟩
    rw [h, show ((st.samples.length : ℤ) * 16 = st.samples.length * (2 : ℕ) * 8) from by
      push_cast; ring, cancel]
  · refine ⟨3, by norm_num, by rw [h]; rfl, by rw [h]; rfl, ?_⟩
    rw [h, show ((st.samples.length : ℤ) * 24 = st.samples.length * (3 : ℕ) * 8) from by
      push_cast; ring, cancel]

/-- **C4** (confirmed).  For a buffer with equal-length channels and bit
depth in {8,16,24}, the byte sequence assembled by the encoder begins
with `"RIFF"`, the little-endian 32-bit `4 + 24 + 8 + dataChunkSize`,
`"WAVE"`, then the format chunk `"fmt "` with size 16, audioFormat 1,
the channel count, the sample rate, `numBytesPerSecond =
channels*sampleRate*bitDepth/8`, `numBytesPerBlock =
channels*(bitDepth/8)` and the bit depth, then `"data"` and the
little-endian `dataChunkSize` — all little-endian.  The representability
hypotheses (`hrate`, `hch`, `hblock`, `hbps`) say the fields fit their
16/32-bit slots, which the claim's field equalities presuppose. -/
theorem claim_C4_encode_header_layout (st : AFState)
    (hdepth : st.bitDepth = 8 ∨ st.bitDepth = 16 ∨ st.bitDepth = 24)
    (heq : ∀ ch ∈ st.samples, ch.length = (st.samples.getD 0 []).length)
    (hrate : st.sampleRate < 2 ^ 32)
    (hch : st.samples.length < 2 ^ 16)
    (hblock : st.samples.length * (st.bitDepth.toNat / 8) < 2 ^ 16)
    (hbps : st.samples.length * st.sampleRate * st.bitDepth.toNat < 2 ^ 32) :
    ∃ bs rest, assembleWave st = some bs ∧
      bs = strRIFF ++ le32bytes (toU32 (4 + 24 + 8 + dataChunkSizeEnc st)) ++
        strWAVE ++ strFmtSpace ++ le32bytes 16 ++ le16bytes 1 ++
        le16bytes st.samples.length ++ le32bytes st.sampleRate ++
        le32bytes (st.samples.length * st.sampleRate * st.bitDepth.toNat / 8) ++
        le16bytes (st.samples.length * (st.bitDepth.toNat / 8)) ++
        le16bytes st.bitDepth.toNat ++ strData ++
        le32bytes (toU32 (dataChunkSizeEnc st)) ++ rest := by
  obtain ⟨p, hp, -⟩ := encodePayload_spec st hdepth
  refine ⟨assembleHeader st ++ p, p, by simp [assembleWave, hp], ?_⟩
  rw [assembleHeader_eq]
  have h1 := toU32_toInt32 (4 + 24 + 8 + dataChunkSizeEnc st)
  have h2 : toU32 (16 : ℤ) = 16 := by decide
  have h3 : toU16 (1 : ℤ) = 1 := by decide
  have h4 : toU16 ((toU16 (getNumChannels st) : ℕ) : ℤ) = st.samples.length := by
    rw [toU16_cast_toU16]
    exact toU16_natCast_small _ hch
  have h5 : toU32 (st.sampleRate : ℤ) = st.sampleRate := toU32_natCast_small _ hrate
  have hd32 : toU32 st.bitDepth = st.bitDepth.toNat := by
    rcases hdepth with h | h | h <;> rw [h] <;> decide
  have h6 : numBytesPerSecondEnc st =
      st.samples.length * st.sampleRate * st.bitDepth.toNat / 8 := by
    unfold numBytesPerSecondEnc
    rw [hd32, Nat.mod_eq_of_lt hbps]
  have h7 : toU32 ((numBytesPerSecondEnc st : ℕ) : ℤ) = numBytesPerSecondEnc st :=
    toU32_natCast_small _ (numBytesPerSecondEnc_lt st)
  have h8 : toU16 (numBytesPerBlockEnc st) =
      st.samples.length * (st.bitDepth.toNat / 8) := by
    obtain ⟨k, -, hdiv8, htdiv, -⟩ := depth_structure st hdepth
    unfold numBytesPerBlockEnc getNumChannels
    rw [toU16_toInt16, htdiv, hdiv8]
    rw [show ((st.samples.length : ℤ) * (k : ℕ) = ((st.samples.length * k : ℕ) : ℤ))
      from by push_cast; ring]
    rw [hdiv8] at hblock
    exact toU16_natCast_small _ hblock
  have h9 : toU16 ((toU16 st.bitDepth : ℕ) : ℤ) = st.bitDepth.toNat := by
    rw [toU16_cast_toU16]
    rcases hdepth with h | h | h <;> rw [h] <;> decide
  rw [h1, h2, h3, h4, h5, h7, h6, h8, h9]

/-- Witness for **C4**: the header layout instantiated on the concrete
mono 16-bit state `roundTripInput`. -/
theorem claim_C4_encode_header_layout_witness :
    (roundTripInput.bitDepth = 16 ∨ False) ∧
    (∀ ch ∈ roundTripInput.samples,
      ch.length = (roundTripInput.samples.getD 0 []).length) ∧
    roundTripInput.sampleRate < 2 ^ 32 ∧
    ∃ bs rest, assembleWave roundTripInput = some bs ∧
      bs = strRIFF ++
        le32bytes (toU32 (4 + 24 + 8 + dataChunkSizeEnc roundTripInput)) ++
        strWAVE ++ strFmtSpace ++ le32bytes 16 ++ le16bytes 1 ++
        le16bytes roundTripInput.samples.length ++
        le32bytes roundTripInput.sampleRate ++
        le32bytes (roundTripInput.samples.length * roundTripInput.sampleRate *
          roundTripInput.bitDepth.toNat / 8) ++
        le16bytes (roundTripInput.samples.length *
          (roundTripInput.bitDepth.toNat / 8)) ++
        le16bytes roundTripInput.bitDepth.toNat ++ strData ++
        le32bytes (toU32 (dataChunkSizeEnc roundTripInput)) ++ rest :=
  ⟨Or.inl (by decide), by decide, by decide,
   claim_C4_encode_header_layout roundTripInput (Or.inr (Or.inl (by decide)))
     (by decide) (by decide) (by decide) (by decide) (by decide)⟩

/-- **C9** (confirmed).  For a buffer with equal-length channels, bit
depth in {8,16,24} and total size below the `int32_t` range (`hbound`,
which covers every physically representable buffer), the encoder's
self-audit branch is unreachable — `saveToWaveFile` reaches the write
hand-off with `some` output — and the assembled byte sequence has length
exactly `44 + numSamplesPerChannel * numChannels * (bitDepth/8)`. -/
theorem claim_C9_save_audit_unreachable (st : AFState)
    (hdepth : st.bitDepth = 8 ∨ st.bitDepth = 16 ∨ st.bitDepth = 24)
    (heq : ∀ ch ∈ st.samples, ch.length = (st.samples.getD 0 []).length)
    (hbound : 44 + (getNumSamplesPerChannel st).toNat * st.samples.length *
      (st.bitDepth.toNat / 8) < 2 ^ 31) :
    ∃ bs, saveToWaveFile st = some bs ∧
      bs.length = 44 + (getNumSamplesPerChannel st).toNat * st.samples.length *
        (st.bitDepth.toNat / 8) := by
  obtain ⟨p, hp, hplen⟩ := encodePayload_spec st hdepth
  obtain ⟨k, -, hdiv8, htdiv, htdivmul⟩ := depth_structure st hdepth
  obtain ⟨n, hn⟩ : ∃ n : ℕ, getNumSamplesPerChannel st = (n : ℤ) :=
    ⟨_, getNumSamplesPerChannel_eq st⟩
  have hA : (getNumSamplesPerChannel st).toNat = n := by
    rw [hn]
    exact Int.toNat_natCast n
  rw [hA, hdiv8] at hbound ⊢
  have hassem : assembleWave st = some (assembleHeader st ++ p) := by
    simp [assembleWave, hp]
  have hplen2 : p.length = n * st.samples.length * k := by
    rw [hplen, hA, hdiv8]
    ring
  have hlen : (assembleHeader st ++ p).length = 44 + n * st.samples.length * k := by
    simp [assembleHeader_length, hplen2]
  have hdcs : dataChunkSizeEnc st = ((n * st.samples.length * k : ℕ) : ℤ) := by
    unfold dataChunkSizeEnc getNumChannels
    rw [hn, htdivmul]
    rw [show ((n : ℤ) * ((st.samples.length : ℤ) * (k : ℕ)) =
      ((n * st.samples.length * k : ℕ) : ℤ)) from by push_cast; ring]
    exact toInt32_natCast_small _ (by omega)
  have hcheck1 : toInt32 (4 + 24 + 8 + dataChunkSizeEnc st) =
      ((assembleHeader st ++ p).length : ℤ) - 8 := by
    rw [hlen, hdcs]
    unfold toInt32
    omega
  have hcheck2 : dataChunkSizeEnc st =
      getNumSamplesPerChannel st * getNumChannels st * Int.tdiv st.bitDepth 8 := by
    rw [hdcs, hn, htdiv]
    unfold getNumChannels
    push_cast
    ring
  refine ⟨assembleHeader st ++ p, ?_, hlen⟩
  have hsv : saveToWaveFile st =
      if toInt32 (4 + 24 + 8 + dataChunkSizeEnc st) ≠
          ((assembleHeader st ++ p).length : ℤ) - 8 ∨
        dataChunkSizeEnc st ≠
          getNumSamplesPerChannel st * getNumChannels st * Int.tdiv st.bitDepth 8 then
        none
      else some (assembleHeader st ++ p) := by
    unfold saveToWaveFile
    rw [hassem]
  rw [hsv, if_neg]
  push_neg
  exact ⟨hcheck1, hcheck2⟩

/-- Witness for **C9**: the self-audit instantiated on the concrete mono
16-bit state `roundTripInput` (whose one sample yields a 46-byte file). -/
theorem claim_C9_save_audit_unreachable_witness :
    (roundTripInput.bitDepth = 16 ∨ False) ∧
    (∀ ch ∈ roundTripInput.samples,
      ch.length = (roundTripInput.samples.getD 0 []).length) ∧
    44 + (getNumSamplesPerChannel roundTripInput).toNat *
      roundTripInput.samples.length * (roundTripInput.bitDepth.toNat / 8) < 2 ^ 31 ∧
    ∃ bs, saveToWaveFile roundTripInput = some bs ∧
      bs.length = 44 + (getNumSamplesPerChannel roundTripInput).toNat *
        roundTripInput.samples.length * (roundTripInput.bitDepth.toNat / 8) :=
  ⟨Or.inl (by decide), by decide, by decide,
   claim_C9_save_audit_unreachable roundTripInput (Or.inr (Or.inl (by decide)))
     (by decide) (by decide)⟩

/-! Helper lemmas about the decode loop: the inner channel fold appends
one decoded sample to every channel, so the final buffer is characterised
channel-wise. -/

theorem foldl_set_append_length (v : ℕ → ℚ) :
    ∀ (n : ℕ) (acc : List (List ℚ)),
      ((List.range n).foldl
        (fun acc c => acc.set c (acc.getD c [] ++ [v c])) acc).length =
        acc.length := by
  intro n
  induction n with
  | zero => intro acc; rfl
  | succ n ih =>
    intro acc
    rw [List.range_succ, List.foldl_append]
    simp only [List.foldl_cons, List.foldl_nil, List.length_set]
    exact ih acc

theorem foldl_set_append_getD_ge (v : ℕ → ℚ) :
    ∀ (n : ℕ) (acc : List (List ℚ)) (c : ℕ), n ≤ c →
      ((List.range n).foldl
        (fun acc c => acc.set c (acc.getD c [] ++ [v c])) acc).getD c [] =
        acc.getD c [] := by
  intro n
  induction n with
  | zero => intro acc c _; rfl
  | succ n ih =>
    intro acc c hc
    rw [List.range_succ, List.foldl_append]
    simp only [List.foldl_cons, List.foldl_nil]
    rw [List.getD_eq_getElem?_getD, List.getElem?_set_ne (by omega : n ≠ c),
      ← List.getD_eq_getElem?_getD]
    exact ih acc c (by omega)

theorem foldl_set_append_getD_lt (v : ℕ → ℚ) :
    ∀ (n : ℕ) (acc : List (List ℚ)) (c : ℕ), c < n → c < acc.length →
      ((List.range n).foldl
        (fun acc c => acc.set c (acc.getD c [] ++ [v c])) acc).getD c [] =
        acc.getD c [] ++ [v c] := by
  intro n
  induction n with
  | zero => intro acc c hc _; omega
  | succ n ih =>
    intro acc c hc hlen
    rw [List.range_succ, List.foldl_append]
    simp only [List.foldl_cons, List.foldl_nil]
    rcases Nat.lt_or_ge c n with h | h
    · rw [List.getD_eq_getElem?_getD, List.getElem?_set_ne (by omega : n ≠ c),
        ← List.getD_eq_getElem?_getD]
      exact ih acc c h hlen
    · have hcn : c = n := by omega
      subst hcn
      rw [List.getD_eq_getElem?_getD,
        List.getElem?_set_self (by rw [foldl_set_append_length]; omega),
        Option.getD_some, foldl_set_append_getD_ge v c acc c le_rfl]

theorem decodeLoop_succ (fileData : List ℕ) (d start block bps : ℤ)
    (nch N : ℕ) (init : List (List ℚ)) :
    decodeLoop fileData d start block bps nch (N + 1) init =
      (List.range nch).foldl
        (fun acc c => acc.set c (acc.getD c [] ++
          [decodeSampleAt fileData d (start + block * N + c * bps)]))
        (decodeLoop fileData d start block bps nch N init) := by
  unfold decodeLoop
  rw [List.range_succ, List.foldl_append]
  rfl

theorem decodeLoop_length (fileData : List ℕ) (d start block bps : ℤ) (nch : ℕ) :
    ∀ (N : ℕ) (init : List (List ℚ)),
      (decodeLoop fileData d start block bps nch N init).length = init.length := by
  intro N
  induction N with
  | zero => intro init; rfl
  | succ N ih =>
    intro init
    rw [decodeLoop_succ]
    exact (foldl_set_append_length _ nch _).trans (ih init)

theorem decodeLoop_getD (fileData : List ℕ) (d start block bps : ℤ) (nch : ℕ) :
    ∀ (N : ℕ) (c : ℕ), c < nch →
      (decodeLoop fileData d start block bps nch N
        (List.replicate nch ([] : List ℚ))).getD c [] =
        (List.range N).map (fun (i : ℕ) =>
          decodeSampleAt fileData d (start + block * (i : ℤ) + (c : ℤ) * bps)) := by
  intro N
  induction N with
  | zero =>
    intro c hc
    show (List.replicate nch ([] : List ℚ)).getD c [] = []
    simp [List.getD_eq_getElem?_getD, List.getElem?_replicate, hc]
  | succ N ih =>
    intro c hc
    rw [decodeLoop_succ]
    calc ((List.range nch).foldl
        (fun acc c => acc.set c (acc.getD c [] ++
          [decodeSampleAt fileData d (start + block * N + c * bps)]))
        (decodeLoop fileData d start block bps nch N
          (List.replicate nch []))).getD c []
        = (decodeLoop fileData d start block bps nch N
            (List.replicate nch [])).getD c [] ++
          [decodeSampleAt fileData d (start + block * N + c * bps)] :=
          foldl_set_append_getD_lt _ nch _ c hc
            (by rw [decodeLoop_length]; simpa using hc)
      _ = (List.range N).map (fun (i : ℕ) =>
            decodeSampleAt fileData d (start + block * (i : ℤ) + (c : ℤ) * bps)) ++
          [decodeSampleAt fileData d (start + block * N + c * bps)] := by
          rw [ih c hc]
      _ = (List.range (N + 1)).map (fun (i : ℕ) =>
            decodeSampleAt fileData d (start + block * (i : ℤ) + (c : ℤ) * bps)) := by
          rw [List.range_succ, List.map_append]
          rfl

set_option maxRecDepth 4000 in
/-- **C5** (confirmed).  Whenever `decodeWaveFile` succeeds, channel `c`
of the decoded buffer is exactly the sequence, in increasing sample-index
order, of the width-appropriate sample conversions applied at byte
offsets `samplesStartIndex + numBytesPerBlock*i + c*numBytesPerSample`
(all parsed from the stream), for `i` ranging over `[0, numSamples)`. -/
theorem claim_C5_decode_sample_extraction (st st' : AFState) (fileData : List ℕ)
    (h : decodeWaveFile st fileData = (true, st')) :
    ∀ c : ℕ, c < (decNumChannels fileData).toNat →
      st'.samples.getD c [] =
        (List.range (decNumSamples fileData).toNat).map (fun (i : ℕ) =>
          decodeSampleAt fileData (decBitDepth fileData)
            (samplesStartIndex fileData + decNumBytesPerBlock fileData * (i : ℤ) +
              (c : ℤ) * decNumBytesPerSample fileData)) := by
  intro c hc
  unfold decodeWaveFile at h
  split_ifs at h
  all_goals first
    | (exact absurd (show false = true from congrArg Prod.fst h) (by decide))
    | (injection h with h1 h2
       subst h2
       convert decodeLoop_getD fileData (decBitDepth fileData)
         (samplesStartIndex fileData) (decNumBytesPerBlock fileData)
         (decNumBytesPerSample fileData) (decNumChannels fileData).toNat
         (decNumSamples fileData).toNat c hc using 2)

/-- Witness for **C5**: decoding the concrete stream `validStream`
succeeds and channel 0 is the per-index conversion of the payload
bytes. -/
theorem claim_C5_decode_sample_extraction_witness :
    decodeWaveFile initialAudioFile validStream =
      (true, { samples := [[32767 / 32768]],
               audioFileFormat := AudioFileFormat.NotLoaded,
               sampleRate := 8000, bitDepth := 16 }) ∧
    0 < (decNumChannels validStream).toNat ∧
    ({ samples := [[32767 / 32768]],
       audioFileFormat := AudioFileFormat.NotLoaded,
       sampleRate := 8000, bitDepth := 16 : AFState }).samples.getD 0 [] =
      (List.range (decNumSamples validStream).toNat).map (fun i =>
        decodeSampleAt validStream (decBitDepth validStream)
          (samplesStartIndex validStream + decNumBytesPerBlock validStream * i +
            (0 : ℕ) * decNumBytesPerSample validStream)) :=
  ⟨by decide, by decide,
   claim_C5_decode_sample_extraction initialAudioFile
     { samples := [[32767 / 32768]], audioFileFormat := AudioFileFormat.NotLoaded,
       sampleRate := 8000, bitDepth := 16 } validStream (by decide) 0 (by decide)⟩

end AudioFileSpec
